import Mathlib

/-!
Verification of the JSON-to-UI normalization core of the `opcua_live_server`
repository (`src/shared/normalization.ts`), shallowly embedded in Lean.

Modelling conventions:
* TypeScript strings are `String`, JS numbers that the code treats as integers
  are `Int` (counts are `Nat`), optional fields are `Option`.
* A JS `Record<string, T>` is a list of key/value pairs in insertion order;
  assigning to an existing key overwrites in place, a fresh key is appended
  (`recordSet` below), mirroring JS object-key semantics.
* `Math.random()`-generated ids and `new Date()` timestamps are modelled by
  explicit parameters (`genId`, `now`): the functions are otherwise pure.
* `throw` in `normalizePLCConfig` is modelled by `Except String`.
* JS truthiness is modelled where the code relies on it: `!v.parentId` is true
  for both `undefined` and the empty string (`jsFalsyStr`), `v.hasChildren` is
  truthy only for `some true` (`jsTruthyOptBool`), `plc_no || 1` maps both
  `undefined` and `0` to the default (`jsOrInt`), and a present
  `metadata.bit_mappings` object is truthy even when empty.
* `Array.prototype.sort` is stable; for the consistent comparator
  `(a, b) => (a.bitPosition || 0) - (b.bitPosition || 0)` every stable sort
  produces the same list, modelled by a stable insertion sort
  (`sortByBitPosition`).
-/

/-- One entry of a channel's `bit_mappings` record (`normalization.ts`, `BitMapping`). -/
structure BitMapping where
  address : String
  description : String
  bit_position : Int
  deriving DecidableEq

/-- The optional `metadata` object of an address mapping. -/
structure ChannelMetadata where
  bit_count : Int
  bit_mappings : List (String × BitMapping)
  deriving DecidableEq

/-- One uploaded address mapping (`normalization.ts`, `AddressMapping`). -/
structure AddressMapping where
  plc_reg_add : String
  data_type : String
  opcua_reg_add : String
  description : String
  metadata : Option ChannelMetadata
  deriving DecidableEq

/-- The runtime value found in a PLC entry's `address_mappings` field.  The code
defends against it being absent or not an array, so the model keeps those
shapes distinguishable. -/
inductive AddressMappingsField where
  | absent
  | notArray (value : String)
  | array (mappings : List AddressMapping)
  deriving DecidableEq

/-- One uploaded PLC configuration (`schema.ts`, `RawPLCConfig`). -/
structure RawPLCConfig where
  plc_name : String
  plc_no : Int
  plc_ip : String
  opcua_url : String
  address_mappings : AddressMappingsField
  deriving DecidableEq

/-- The runtime value of the uploaded document's `plcs` field: possibly missing,
possibly a non-array value (modelled by its string form), possibly an array. -/
inductive PlcsField where
  | absent
  | notArray (value : String)
  | array (plcs : List RawPLCConfig)
  deriving DecidableEq

/-- The uploaded JSON document handed to `normalizePLCConfig`. -/
structure RawJSONData where
  plcs : PlcsField
  deriving DecidableEq

/-- UI-facing variable record (`normalization.ts`, `NormalizedVariable`).
Recursive because a channel parent stores its materialized `children` list. -/
inductive NormalizedVariable : Type where
  | mk
    (id : String)
    (type : String)
    (plc_reg_add : String)
    (opcua_reg_add : String)
    (description : String)
    (data_type : String)
    (parentId : Option String)
    (bitPosition : Option Int)
    (hasChildren : Option Bool)
    (children : Option (List NormalizedVariable))
    (isBitRow : Option Bool)
    (metadata : Option ChannelMetadata)

def NormalizedVariable.id : NormalizedVariable → String
  | .mk a _ _ _ _ _ _ _ _ _ _ _ => a

def NormalizedVariable.type : NormalizedVariable → String
  | .mk _ a _ _ _ _ _ _ _ _ _ _ => a

def NormalizedVariable.plc_reg_add : NormalizedVariable → String
  | .mk _ _ a _ _ _ _ _ _ _ _ _ => a

def NormalizedVariable.opcua_reg_add : NormalizedVariable → String
  | .mk _ _ _ a _ _ _ _ _ _ _ _ => a

def NormalizedVariable.description : NormalizedVariable → String
  | .mk _ _ _ _ a _ _ _ _ _ _ _ => a

def NormalizedVariable.data_type : NormalizedVariable → String
  | .mk _ _ _ _ _ a _ _ _ _ _ _ => a

def NormalizedVariable.parentId : NormalizedVariable → Option String
  | .mk _ _ _ _ _ _ a _ _ _ _ _ => a

def NormalizedVariable.bitPosition : NormalizedVariable → Option Int
  | .mk _ _ _ _ _ _ _ a _ _ _ _ => a

def NormalizedVariable.hasChildren : NormalizedVariable → Option Bool
  | .mk _ _ _ _ _ _ _ _ a _ _ _ => a

def NormalizedVariable.children : NormalizedVariable → Option (List NormalizedVariable)
  | .mk _ _ _ _ _ _ _ _ _ a _ _ => a

def NormalizedVariable.isBitRow : NormalizedVariable → Option Bool
  | .mk _ _ _ _ _ _ _ _ _ _ a _ => a

def NormalizedVariable.metadata : NormalizedVariable → Option ChannelMetadata
  | .mk _ _ _ _ _ _ _ _ _ _ _ a => a

/-- Functional update of the `hasChildren` field (spread syntax in the source). -/
def NormalizedVariable.withHasChildren : NormalizedVariable → Option Bool → NormalizedVariable
  | .mk a b c d e f g h _ j k l, hc => .mk a b c d e f g h hc j k l

/-- Functional update of the `children` field (spread syntax in the source). -/
def NormalizedVariable.withChildren :
    NormalizedVariable → Option (List NormalizedVariable) → NormalizedVariable
  | .mk a b c d e f g h i _ k l, ch => .mk a b c d e f g h i ch k l

/-- Erase the nested `children` field, keeping every other field. -/
def NormalizedVariable.stripChildren (v : NormalizedVariable) : NormalizedVariable :=
  v.withChildren none

/-- UI-facing PLC record (`normalization.ts`, `NormalizedPLC`).  Timestamps are
epoch numbers. -/
structure NormalizedPLC where
  id : String
  plc_name : String
  plc_no : Option Int
  plc_ip : String
  opcua_url : String
  status : String
  last_checked : Nat
  is_connected : Bool
  created_at : Nat
  «variables» : List NormalizedVariable
  registerCount : Nat
  boolCount : Nat
  channelCount : Nat

/-- One group of the server-centric view (`normalization.ts`, `ServerGroup`). -/
structure ServerGroup where
  serverUrl : String
  plcs : List NormalizedPLC
  connectedCount : Nat
  totalCount : Nat
  status : String
  lastUpdated : Int

/-- JS truthiness of `v.hasChildren : boolean | undefined`: only `true` is truthy. -/
def jsTruthyOptBool : Option Bool → Bool
  | some true => true
  | _ => false

/-- JS falsiness of an optional string field: `undefined` and `""` are falsy. -/
def jsFalsyStr : Option String → Bool
  | none => true
  | some s => s == ""

/-- JS `x || d` for an optional number `x`: `undefined` and `0` give the default. -/
def jsOrInt (o : Option Int) (d : Int) : Int :=
  match o with
  | some n => if n == 0 then d else n
  | none => d

/-- The sort key of the comparator `(a, b) => (a.bitPosition || 0) - (b.bitPosition || 0)`. -/
def bitSortKey (v : NormalizedVariable) : Int :=
  match v.bitPosition with
  | some b => b
  | none => 0

/-- Insert `a` into `l` before the first element the comparator puts after it:
one step of a stable insertion sort. -/
def sortInsertByBit (a : NormalizedVariable) : List NormalizedVariable → List NormalizedVariable
  | [] => [a]
  | b :: l => if bitSortKey a - bitSortKey b ≤ 0 then a :: b :: l else b :: sortInsertByBit a l

/-- `children.sort((a, b) => (a.bitPosition || 0) - (b.bitPosition || 0))`:
stable sort by bit position. -/
def sortByBitPosition (l : List NormalizedVariable) : List NormalizedVariable :=
  l.foldr sortInsertByBit []

/-- The child variable pushed for one `(bitKey, bitData)` entry of
`metadata.bit_mappings` (`normalizeAddressMapping`, channel branch). -/
def mkBitChild (parentOpcua : String) (bitData : BitMapping) : NormalizedVariable :=
  .mk (parentOpcua ++ ":" ++ toString bitData.bit_position) "bool" bitData.address
    (parentOpcua ++ "_bit" ++ toString bitData.bit_position) bitData.description "bool"
    (some parentOpcua) (some bitData.bit_position) none none none none

/-- The `baseVariable` built at the top of `normalizeAddressMapping`. -/
def baseVariableOf (m : AddressMapping) : NormalizedVariable :=
  .mk m.opcua_reg_add (if m.data_type == "channel" then "channel" else "bool")
    m.plc_reg_add m.opcua_reg_add m.description m.data_type
    none none none none none m.metadata

/-- `normalizeAddressMapping` from `normalization.ts`: bool mappings pass through,
channel mappings with a (present, possibly empty) `bit_mappings` object expand
into a parent followed by its bit children sorted by position, anything else is
a childless fallback. -/
def normalizeAddressMapping (mapping : AddressMapping) : List NormalizedVariable :=
  if mapping.data_type == "bool" then [baseVariableOf mapping]
  else
    match mapping.data_type == "channel", mapping.metadata with
    | true, some md =>
      let children :=
        sortByBitPosition (md.bit_mappings.map fun kv => mkBitChild mapping.opcua_reg_add kv.2)
      ((baseVariableOf mapping).withHasChildren (some true)).withChildren (some children)
        :: children
    | _, _ => [(baseVariableOf mapping).withHasChildren (some false)]

/-- The increment `boolCount` receives for one mapping in `normalizePLCConfig`:
1 for a bool mapping, the number of declared bits for a channel mapping with
metadata. -/
def boolContribution (m : AddressMapping) : Nat :=
  if m.data_type == "bool" then 1
  else if m.data_type == "channel" then
    match m.metadata with
    | some md => md.bit_mappings.length
    | none => 0
  else 0

/-- The increment `channelCount` receives for one mapping in `normalizePLCConfig`. -/
def channelContribution (m : AddressMapping) : Nat :=
  if m.data_type == "bool" then 0
  else if m.data_type == "channel" then 1
  else 0

/-- The body of the `json.plcs.map` callback in `normalizePLCConfig`.  The
generated `Math.random()` id and the `new Date()` timestamps arrive as the
`genId` / `now` parameters. -/
def normalizeRawPLC (genId : String) (now : Nat) (plc : RawPLCConfig) : NormalizedPLC :=
  match plc.address_mappings with
  | .array mappings =>
    let allVariables := mappings.flatMap normalizeAddressMapping
    { id := genId
      plc_name := plc.plc_name
      plc_no := some plc.plc_no
      plc_ip := plc.plc_ip
      opcua_url := plc.opcua_url
      status := "maintenance"
      last_checked := now
      is_connected := false
      created_at := now
      «variables» := allVariables
      registerCount := allVariables.length
      boolCount := (mappings.map boolContribution).sum
      channelCount := (mappings.map channelContribution).sum }
  | _ =>
    { id := genId
      plc_name := plc.plc_name
      plc_no := some plc.plc_no
      plc_ip := plc.plc_ip
      opcua_url := plc.opcua_url
      status := "maintenance"
      last_checked := now
      is_connected := false
      created_at := now
      «variables» := []
      registerCount := 0
      boolCount := 0
      channelCount := 0 }

/-- `normalizePLCConfig` from `normalization.ts`: throws unless `json.plcs` is an
array, otherwise normalizes every PLC entry. -/
def normalizePLCConfig (json : RawJSONData) (genId : Nat → String) (now : Nat) :
    Except String (List NormalizedPLC) :=
  match json.plcs with
  | .array plcs => .ok (plcs.enum.map fun p => normalizeRawPLC (genId p.1) now p.2)
  | _ => .error "Invalid JSON structure: missing plcs array"

/-- Model of `-Infinity`, the identity of `Math.max` over a spread array; the
buckets built by `groupPLCsByServer` are nonempty, so it never surfaces. -/
def jsNegInfinity : Int := -(2 ^ 62)

/-- One step of filling the `Map<string, NormalizedPLC[]>` in `groupPLCsByServer`:
push onto an existing bucket, else append a fresh bucket (JS `Map` preserves
key insertion order). -/
def insertGrouped (acc : List (String × List NormalizedPLC)) (url : String)
    (plc : NormalizedPLC) : List (String × List NormalizedPLC) :=
  match acc with
  | [] => [(url, [plc])]
  | (k, ps) :: rest =>
    if k == url then (k, ps ++ [plc]) :: rest else (k, ps) :: insertGrouped rest url plc

/-- `groupPLCsByServer` from `normalization.ts`. -/
def groupPLCsByServer (plcs : List NormalizedPLC) : List ServerGroup :=
  let grouped := plcs.foldl (fun acc p => insertGrouped acc p.opcua_url p) []
  grouped.map fun kv =>
    { serverUrl := kv.1
      plcs := kv.2
      connectedCount := (kv.2.filter fun p => p.is_connected).length
      totalCount := kv.2.length
      status := if kv.2.any fun p => p.is_connected then "connected" else "disconnected"
      lastUpdated := (kv.2.map fun p => (p.last_checked : Int)).foldl max jsNegInfinity }

/-- `searchQuery.trim()`: strip whitespace from both ends. -/
def jsTrim (s : String) : String :=
  String.mk (((s.data.dropWhile Char.isWhitespace).reverse.dropWhile Char.isWhitespace).reverse)

/-- `s.toLowerCase()`, characterwise. -/
def jsToLower (s : String) : String :=
  String.mk (s.data.map Char.toLower)

/-- `s.includes(sub)`: substring test. -/
def jsIncludes (s sub : String) : Bool :=
  s.data.tails.any fun t => sub.data.isPrefixOf t

/-- `filterVariables` from `normalization.ts`. -/
def filterVariables («variables» : List NormalizedVariable) (searchQuery : String) :
    List NormalizedVariable :=
  if jsTrim searchQuery == "" then «variables»
  else
    let query := jsToLower searchQuery
    «variables».filter fun v =>
      jsIncludes (jsToLower v.plc_reg_add) query
        || jsIncludes (jsToLower v.opcua_reg_add) query
        || jsIncludes (jsToLower v.description) query

/-- `getParentVariables`: `variables.filter(v => !v.parentId)` with JS falsiness. -/
def getParentVariables («variables» : List NormalizedVariable) : List NormalizedVariable :=
  «variables».filter fun v => jsFalsyStr v.parentId

/-- `getChildVariables`: `variables.filter(v => v.parentId === parentId)`. -/
def getChildVariables («variables» : List NormalizedVariable) (parentId : String) :
    List NormalizedVariable :=
  «variables».filter fun v => v.parentId == some parentId

/-- Assign `r[key] = value` on a JS record: overwrite in place or append. -/
def recordSet (r : List (String × BitMapping)) (key : String) (value : BitMapping) :
    List (String × BitMapping) :=
  match r with
  | [] => [(key, value)]
  | (k, v) :: rest =>
    if k == key then (key, value) :: rest else (k, v) :: recordSet rest key value

/-- `String(n).padStart(2, '0')` applied to a rendered number. -/
def padStartZero (n : Nat) (s : String) : String :=
  String.mk (List.replicate (n - s.length) '0') ++ s

/-- The record key `"bit_" + bitPosition.toString().padStart(2, '0')`. -/
def bitKeyOf (bp : Int) : String :=
  "bit_" ++ padStartZero 2 (toString bp)

/-- The `(bitKey, bit datum)` pair written into the reconstructed `bit_mappings`
for one child in `denormalizePLC`. -/
def denormChildEntry (c : NormalizedVariable) : String × BitMapping :=
  (bitKeyOf (c.bitPosition.getD 0), ⟨c.plc_reg_add, c.description, c.bitPosition.getD 0⟩)

/-- The body of the `parentVariables.map` callback in `denormalizePLC`. -/
def denormMapping («variables» : List NormalizedVariable) (v : NormalizedVariable) :
    AddressMapping :=
  let base : AddressMapping :=
    ⟨v.plc_reg_add, v.data_type, v.opcua_reg_add, v.description, none⟩
  if v.type == "channel" && jsTruthyOptBool v.hasChildren then
    let children := getChildVariables «variables» v.id
    let bms := children.foldl (fun r c => recordSet r (denormChildEntry c).1 (denormChildEntry c).2) []
    { base with metadata := some ⟨(children.length : Int), bms⟩ }
  else base

/-- `denormalizePLC` from `normalization.ts`. -/
def denormalizePLC (normalizedPLC : NormalizedPLC) : RawPLCConfig :=
  let parentVariables := getParentVariables normalizedPLC.variables
  let address_mappings := parentVariables.map (denormMapping normalizedPLC.variables)
  ⟨normalizedPLC.plc_name, jsOrInt normalizedPLC.plc_no 1, normalizedPLC.plc_ip,
    normalizedPLC.opcua_url, .array address_mappings⟩

/-- The sorted child list a channel mapping with metadata expands to. -/
def chanChildren (m : AddressMapping) (md : ChannelMetadata) : List NormalizedVariable :=
  sortByBitPosition (md.bit_mappings.map fun kv => mkBitChild m.opcua_reg_add kv.2)

/-- What C3 asserts about the expansion of a channel mapping `m` with metadata
`md`: `1 + K` rows, parent first with the sorted children attached, children's
bit positions exactly the declared ones, each child's fields derived from its
bit datum, and the children sorted ascending by bit position. -/
def BitExpansionSpec (m : AddressMapping) (md : ChannelMetadata) : Prop :=
  (normalizeAddressMapping m).length = 1 + md.bit_mappings.length ∧
  ∃ p cs, normalizeAddressMapping m = p :: cs ∧
    p.opcua_reg_add = m.opcua_reg_add ∧
    p.hasChildren = some true ∧
    p.children = some cs ∧
    (cs.map NormalizedVariable.bitPosition).Perm
      (md.bit_mappings.map fun kv => some kv.2.bit_position) ∧
    (∀ c ∈ cs, ∃ bp : Int, c.bitPosition = some bp ∧
      c.id = p.opcua_reg_add ++ ":" ++ toString bp ∧
      c.opcua_reg_add = p.opcua_reg_add ++ "_bit" ++ toString bp ∧
      c.parentId = some p.opcua_reg_add) ∧
    cs.Pairwise fun a b => bitSortKey a ≤ bitSortKey b

/-- Concrete channel mapping used to witness C3: two bits, declared out of order. -/
def exC3md : ChannelMetadata :=
  ⟨2, [("bit_01", ⟨"D10.1", "one", 1⟩), ("bit_00", ⟨"D10.0", "zero", 0⟩)]⟩

/-- Concrete channel mapping used to witness C3. -/
def exC3map : AddressMapping := ⟨"D10", "channel", "P1C", "chan", some exC3md⟩

/-- What C2 asserts for a document `{plcs: [plc]}` where `plc` has exactly one
bool mapping and one channel mapping with three bits: the counts 5/4/1, together
with the general fact that `boolCount + channelCount` can differ from
`registerCount`. -/
def CountAsymmetrySpec (plc : RawPLCConfig) (genId : Nat → String) (now : Nat) : Prop :=
  (∃ p, normalizePLCConfig ⟨.array [plc]⟩ genId now = .ok [p] ∧
    p.registerCount = 5 ∧ p.boolCount = 4 ∧ p.channelCount = 1) ∧
  ∃ (plc2 : RawPLCConfig) (g2 : Nat → String) (t2 : Nat) (q : NormalizedPLC),
    normalizePLCConfig ⟨.array [plc2]⟩ g2 t2 = .ok [q] ∧
    q.boolCount + q.channelCount ≠ q.registerCount

/-- The bool mapping of the C2 witness. -/
def exC2bool : AddressMapping := ⟨"D0", "bool", "B0", "d", none⟩

/-- The 3-bit channel metadata of the C2 witness. -/
def exC2md : ChannelMetadata :=
  ⟨3, [("bit_00", ⟨"D1.0", "a", 0⟩), ("bit_01", ⟨"D1.1", "b", 1⟩), ("bit_02", ⟨"D1.2", "c", 2⟩)]⟩

/-- The channel mapping of the C2 witness. -/
def exC2chan : AddressMapping := ⟨"D1", "channel", "C0", "d", some exC2md⟩

/-- The PLC of the C2 witness. -/
def exC2plc : RawPLCConfig := ⟨"p", 1, "1.2.3.4", "opc.tcp://s", .array [exC2bool, exC2chan]⟩

/-- Every bucket of the grouping map holds only PLCs with that bucket's URL. -/
def GroupedInv (acc : List (String × List NormalizedPLC)) : Prop :=
  ∀ kv ∈ acc, ∀ p ∈ kv.2, p.opcua_url = kv.1

/-- A minimal concrete PLC for the C7 witness, with the given URL and
connection flag. -/
def exC7plc (url : String) (conn : Bool) : NormalizedPLC :=
  ⟨"i", "p", some 1, "1.2.3.4", url, "maintenance", 0, conn, 0, [], 0, 0, 0⟩

/-- The predicate C6 counts: a variable with the sought id that is flagged as a
parent with children. -/
def linkP (pid : String) : NormalizedVariable → Bool :=
  fun w => w.id == pid && w.hasChildren == some true

/-- C6 counterexample input: one PLC with two channel mappings that share the
`opcua_reg_add` "X", each carrying one bit. -/
def exC6dup : RawPLCConfig :=
  ⟨"plc", 1, "1.1.1.1", "opc.tcp://s",
    .array [⟨"D1", "channel", "X", "c1", some ⟨1, [("bit_00", ⟨"D1.0", "b", 0⟩)]⟩⟩,
            ⟨"D2", "channel", "X", "c2", some ⟨1, [("bit_00", ⟨"D2.0", "b", 0⟩)]⟩⟩]⟩

/-- C6 witness input: one PLC with a single one-bit channel mapping. -/
def exC6raw : RawPLCConfig :=
  ⟨"p", 1, "1.2.3.4", "opc.tcp://s",
    .array [⟨"D1", "channel", "X", "c", some ⟨1, [("bit_00", ⟨"D1.0", "b", 0⟩)]⟩⟩]⟩

/-- The bit child used in the C4 witness. -/
def exC4child : NormalizedVariable :=
  .mk "X:0" "bool" "D1.0" "X_bit0" "b" "bool" (some "X") (some 0) none none none none

/-- The C4 witness parent with its `children` array populated. -/
def exC4withChildren : NormalizedPLC :=
  ⟨"i", "p", some 1, "1.2.3.4", "opc.tcp://s", "maintenance", 0, false, 0,
    [.mk "X" "channel" "D1" "X" "c" "channel" none none (some true) (some [exC4child]) none none,
      exC4child], 2, 1, 1⟩

/-- The C4 witness PLC, identical except that `children` is absent. -/
def exC4withoutChildren : NormalizedPLC :=
  ⟨"i", "p", some 1, "1.2.3.4", "opc.tcp://s", "maintenance", 0, false, 0,
    [.mk "X" "channel" "D1" "X" "c" "channel" none none (some true) none none none,
      exC4child], 2, 1, 1⟩

/-- The single parent row `normalizeAddressMapping` emits first for a mapping. -/
def parentOf (m : AddressMapping) : NormalizedVariable :=
  if m.data_type == "bool" then baseVariableOf m
  else
    match m.data_type == "channel", m.metadata with
    | true, some md =>
      ((baseVariableOf m).withHasChildren (some true)).withChildren (some (chanChildren m md))
    | _, _ => (baseVariableOf m).withHasChildren (some false)

/-- Structural equivalence of an original mapping with its round-tripped image,
as C1 states it: the four scalar fields agree, and a channel's reconstructed
`bit_mappings` holds the same bit data re-keyed by zero-padded bit position. -/
def MappingEquiv (orig denorm : AddressMapping) : Prop :=
  denorm.plc_reg_add = orig.plc_reg_add ∧ denorm.data_type = orig.data_type ∧
  denorm.opcua_reg_add = orig.opcua_reg_add ∧ denorm.description = orig.description ∧
  ∀ md, orig.metadata = some md → orig.data_type = "channel" →
    ∃ md2, denorm.metadata = some md2 ∧
      md2.bit_mappings.Perm
        (md.bit_mappings.map fun kv => (bitKeyOf kv.2.bit_position, kv.2))

/-- The metadata of the C1 witness channel (two bits, declared out of order). -/
def exC1md : ChannelMetadata :=
  ⟨2, [("bit_01", ⟨"D2.1", "one", 1⟩), ("bit_00", ⟨"D2.0", "zero", 0⟩)]⟩

/-- The mapping list of the C1 witness configuration. -/
def exC1l : List AddressMapping :=
  [⟨"D0", "bool", "B0", "b", none⟩, ⟨"D2", "channel", "C0", "c", some exC1md⟩]

/-- The C1 witness configuration: one bool mapping and one two-bit channel. -/
def exC1cfg : RawPLCConfig := ⟨"p", 1, "1.2.3.4", "opc.tcp://s", .array exC1l⟩

/-! ### Small facts about the record model and the stable sort -/

@[simp] theorem stripChildren_id (v : NormalizedVariable) :
    v.stripChildren.id = v.id := by cases v; rfl

@[simp] theorem stripChildren_type (v : NormalizedVariable) :
    v.stripChildren.type = v.type := by cases v; rfl

@[simp] theorem stripChildren_plc_reg_add (v : NormalizedVariable) :
    v.stripChildren.plc_reg_add = v.plc_reg_add := by cases v; rfl

@[simp] theorem stripChildren_opcua_reg_add (v : NormalizedVariable) :
    v.stripChildren.opcua_reg_add = v.opcua_reg_add := by cases v; rfl

@[simp] theorem stripChildren_description (v : NormalizedVariable) :
    v.stripChildren.description = v.description := by cases v; rfl

@[simp] theorem stripChildren_data_type (v : NormalizedVariable) :
    v.stripChildren.data_type = v.data_type := by cases v; rfl

@[simp] theorem stripChildren_parentId (v : NormalizedVariable) :
    v.stripChildren.parentId = v.parentId := by cases v; rfl

@[simp] theorem stripChildren_bitPosition (v : NormalizedVariable) :
    v.stripChildren.bitPosition = v.bitPosition := by cases v; rfl

@[simp] theorem stripChildren_hasChildren (v : NormalizedVariable) :
    v.stripChildren.hasChildren = v.hasChildren := by cases v; rfl

@[simp] theorem stripChildren_isBitRow (v : NormalizedVariable) :
    v.stripChildren.isBitRow = v.isBitRow := by cases v; rfl

@[simp] theorem stripChildren_metadata (v : NormalizedVariable) :
    v.stripChildren.metadata = v.metadata := by cases v; rfl

theorem filter_flatMap_comm {α β : Type} (l : List α) (f : α → List β) (p : β → Bool) :
    (l.flatMap f).filter p = l.flatMap fun m => (f m).filter p := by
  induction l with
  | nil => rfl
  | cons a t ih => simp only [List.flatMap_cons, List.filter_append, ih]

theorem countP_flatMap_comm {α β : Type} (l : List α) (f : α → List β) (p : β → Bool) :
    (l.flatMap f).countP p = (l.map fun m => (f m).countP p).sum := by
  induction l with
  | nil => rfl
  | cons a t ih => simp only [List.flatMap_cons, List.countP_append, ih, List.map_cons,
      List.sum_cons]

theorem forall₂_map_self {α β : Type} (r : α → β → Prop) (f : α → β) (l : List α)
    (h : ∀ a ∈ l, r a (f a)) : List.Forall₂ r l (l.map f) := by
  induction l with
  | nil => exact List.Forall₂.nil
  | cons a t ih =>
    exact List.Forall₂.cons (h a (List.mem_cons_self a t))
      (ih fun x hx => h x (List.mem_cons_of_mem a hx))

theorem sortInsertByBit_perm (a : NormalizedVariable) (l : List NormalizedVariable) :
    (sortInsertByBit a l).Perm (a :: l) := by
  induction l with
  | nil => exact List.Perm.refl _
  | cons b t ih =>
    rw [sortInsertByBit]
    by_cases h : bitSortKey a - bitSortKey b ≤ 0
    · rw [if_pos h]
    · rw [if_neg h]
      exact (ih.cons b).trans (List.Perm.swap a b t)

theorem sortByBitPosition_perm (l : List NormalizedVariable) :
    (sortByBitPosition l).Perm l := by
  induction l with
  | nil => exact List.Perm.refl _
  | cons a t ih =>
    have : sortByBitPosition (a :: t) = sortInsertByBit a (sortByBitPosition t) := rfl
    rw [this]
    exact (sortInsertByBit_perm a (sortByBitPosition t)).trans (ih.cons a)

theorem sortInsertByBit_pairwise (a : NormalizedVariable) (l : List NormalizedVariable)
    (h : l.Pairwise fun x y => bitSortKey x ≤ bitSortKey y) :
    (sortInsertByBit a l).Pairwise fun x y => bitSortKey x ≤ bitSortKey y := by
  induction l with
  | nil => simp [sortInsertByBit]
  | cons b t ih =>
    rcases List.pairwise_cons.mp h with ⟨hb, ht⟩
    rw [sortInsertByBit]
    by_cases hab : bitSortKey a - bitSortKey b ≤ 0
    · rw [if_pos hab]
      have hab' : bitSortKey a ≤ bitSortKey b := by omega
      refine List.pairwise_cons.mpr ⟨?_, h⟩
      intro x hx
      rcases List.mem_cons.mp hx with rfl | hx
      · exact hab'
      · exact le_trans hab' (hb x hx)
    · rw [if_neg hab]
      have hba : bitSortKey b ≤ bitSortKey a := by omega
      refine List.pairwise_cons.mpr ⟨?_, ih ht⟩
      intro x hx
      rcases List.mem_cons.mp ((sortInsertByBit_perm a t).mem_iff.mp hx) with rfl | hx2
      · exact hba
      · exact hb x hx2

theorem sortByBitPosition_pairwise (l : List NormalizedVariable) :
    (sortByBitPosition l).Pairwise fun x y => bitSortKey x ≤ bitSortKey y := by
  induction l with
  | nil => simp [sortByBitPosition]
  | cons a t ih => exact sortInsertByBit_pairwise a (sortByBitPosition t) ih

/-! ### Shape of `normalizeAddressMapping` on each branch -/

@[simp] theorem withHasChildren_id (v : NormalizedVariable) (b : Option Bool) :
    (v.withHasChildren b).id = v.id := by cases v; rfl

@[simp] theorem withHasChildren_type (v : NormalizedVariable) (b : Option Bool) :
    (v.withHasChildren b).type = v.type := by cases v; rfl

@[simp] theorem withHasChildren_plc_reg_add (v : NormalizedVariable) (b : Option Bool) :
    (v.withHasChildren b).plc_reg_add = v.plc_reg_add := by cases v; rfl

@[simp] theorem withHasChildren_opcua_reg_add (v : NormalizedVariable) (b : Option Bool) :
    (v.withHasChildren b).opcua_reg_add = v.opcua_reg_add := by cases v; rfl

@[simp] theorem withHasChildren_description (v : NormalizedVariable) (b : Option Bool) :
    (v.withHasChildren b).description = v.description := by cases v; rfl

@[simp] theorem withHasChildren_data_type (v : NormalizedVariable) (b : Option Bool) :
    (v.withHasChildren b).data_type = v.data_type := by cases v; rfl

@[simp] theorem withHasChildren_parentId (v : NormalizedVariable) (b : Option Bool) :
    (v.withHasChildren b).parentId = v.parentId := by cases v; rfl

@[simp] theorem withHasChildren_bitPosition (v : NormalizedVariable) (b : Option Bool) :
    (v.withHasChildren b).bitPosition = v.bitPosition := by cases v; rfl

@[simp] theorem withHasChildren_hasChildren (v : NormalizedVariable) (b : Option Bool) :
    (v.withHasChildren b).hasChildren = b := by cases v; rfl

@[simp] theorem withHasChildren_children (v : NormalizedVariable) (b : Option Bool) :
    (v.withHasChildren b).children = v.children := by cases v; rfl

@[simp] theorem withHasChildren_metadata (v : NormalizedVariable) (b : Option Bool) :
    (v.withHasChildren b).metadata = v.metadata := by cases v; rfl

@[simp] theorem withChildren_id (v : NormalizedVariable) (c : Option (List NormalizedVariable)) :
    (v.withChildren c).id = v.id := by cases v; rfl

@[simp] theorem withChildren_type (v : NormalizedVariable) (c : Option (List NormalizedVariable)) :
    (v.withChildren c).type = v.type := by cases v; rfl

@[simp] theorem withChildren_plc_reg_add (v : NormalizedVariable)
    (c : Option (List NormalizedVariable)) :
    (v.withChildren c).plc_reg_add = v.plc_reg_add := by cases v; rfl

@[simp] theorem withChildren_opcua_reg_add (v : NormalizedVariable)
    (c : Option (List NormalizedVariable)) :
    (v.withChildren c).opcua_reg_add = v.opcua_reg_add := by cases v; rfl

@[simp] theorem withChildren_description (v : NormalizedVariable)
    (c : Option (List NormalizedVariable)) :
    (v.withChildren c).description = v.description := by cases v; rfl

@[simp] theorem withChildren_data_type (v : NormalizedVariable)
    (c : Option (List NormalizedVariable)) :
    (v.withChildren c).data_type = v.data_type := by cases v; rfl

@[simp] theorem withChildren_parentId (v : NormalizedVariable)
    (c : Option (List NormalizedVariable)) :
    (v.withChildren c).parentId = v.parentId := by cases v; rfl

@[simp] theorem withChildren_bitPosition (v : NormalizedVariable)
    (c : Option (List NormalizedVariable)) :
    (v.withChildren c).bitPosition = v.bitPosition := by cases v; rfl

@[simp] theorem withChildren_hasChildren (v : NormalizedVariable)
    (c : Option (List NormalizedVariable)) :
    (v.withChildren c).hasChildren = v.hasChildren := by cases v; rfl

@[simp] theorem withChildren_children (v : NormalizedVariable)
    (c : Option (List NormalizedVariable)) :
    (v.withChildren c).children = c := by cases v; rfl

@[simp] theorem withChildren_metadata (v : NormalizedVariable)
    (c : Option (List NormalizedVariable)) :
    (v.withChildren c).metadata = v.metadata := by cases v; rfl

@[simp] theorem baseVariableOf_id (m : AddressMapping) :
    (baseVariableOf m).id = m.opcua_reg_add := rfl

@[simp] theorem baseVariableOf_type (m : AddressMapping) :
    (baseVariableOf m).type = (if m.data_type == "channel" then "channel" else "bool") := rfl

@[simp] theorem baseVariableOf_plc_reg_add (m : AddressMapping) :
    (baseVariableOf m).plc_reg_add = m.plc_reg_add := rfl

@[simp] theorem baseVariableOf_opcua_reg_add (m : AddressMapping) :
    (baseVariableOf m).opcua_reg_add = m.opcua_reg_add := rfl

@[simp] theorem baseVariableOf_description (m : AddressMapping) :
    (baseVariableOf m).description = m.description := rfl

@[simp] theorem baseVariableOf_data_type (m : AddressMapping) :
    (baseVariableOf m).data_type = m.data_type := rfl

@[simp] theorem baseVariableOf_parentId (m : AddressMapping) :
    (baseVariableOf m).parentId = none := rfl

@[simp] theorem baseVariableOf_bitPosition (m : AddressMapping) :
    (baseVariableOf m).bitPosition = none := rfl

@[simp] theorem baseVariableOf_hasChildren (m : AddressMapping) :
    (baseVariableOf m).hasChildren = none := rfl

@[simp] theorem baseVariableOf_metadata (m : AddressMapping) :
    (baseVariableOf m).metadata = m.metadata := rfl

@[simp] theorem mkBitChild_id (o : String) (b : BitMapping) :
    (mkBitChild o b).id = o ++ ":" ++ toString b.bit_position := rfl

@[simp] theorem mkBitChild_type (o : String) (b : BitMapping) :
    (mkBitChild o b).type = "bool" := rfl

@[simp] theorem mkBitChild_plc_reg_add (o : String) (b : BitMapping) :
    (mkBitChild o b).plc_reg_add = b.address := rfl

@[simp] theorem mkBitChild_opcua_reg_add (o : String) (b : BitMapping) :
    (mkBitChild o b).opcua_reg_add = o ++ "_bit" ++ toString b.bit_position := rfl

@[simp] theorem mkBitChild_description (o : String) (b : BitMapping) :
    (mkBitChild o b).description = b.description := rfl

@[simp] theorem mkBitChild_data_type (o : String) (b : BitMapping) :
    (mkBitChild o b).data_type = "bool" := rfl

@[simp] theorem mkBitChild_parentId (o : String) (b : BitMapping) :
    (mkBitChild o b).parentId = some o := rfl

@[simp] theorem mkBitChild_bitPosition (o : String) (b : BitMapping) :
    (mkBitChild o b).bitPosition = some b.bit_position := rfl

@[simp] theorem mkBitChild_hasChildren (o : String) (b : BitMapping) :
    (mkBitChild o b).hasChildren = none := rfl

@[simp] theorem mkBitChild_children (o : String) (b : BitMapping) :
    (mkBitChild o b).children = none := rfl

theorem normalizeAddressMapping_bool (m : AddressMapping) (h : m.data_type = "bool") :
    normalizeAddressMapping m = [baseVariableOf m] := by
  rw [normalizeAddressMapping]
  rw [if_pos (by rw [h]; rfl)]

theorem normalizeAddressMapping_channel (m : AddressMapping) (md : ChannelMetadata)
    (hdt : m.data_type = "channel") (hmd : m.metadata = some md) :
    normalizeAddressMapping m =
      ((baseVariableOf m).withHasChildren (some true)).withChildren (some (chanChildren m md))
        :: chanChildren m md := by
  rw [normalizeAddressMapping, if_neg (by rw [hdt]; decide)]
  have h2 : (m.data_type == "channel") = true := by rw [hdt]; rfl
  rw [h2, hmd]
  rfl

theorem normalizeAddressMapping_other (m : AddressMapping)
    (h1 : m.data_type ≠ "bool") (h2 : m.data_type ≠ "channel" ∨ m.metadata = none) :
    normalizeAddressMapping m = [(baseVariableOf m).withHasChildren (some false)] := by
  rw [normalizeAddressMapping, if_neg (by simp [h1])]
  rcases h2 with h2 | h2
  · have : (m.data_type == "channel") = false := beq_eq_false_iff_ne.mpr h2
    rw [this]
  · rw [h2]
    cases m.data_type == "channel" <;> rfl

theorem mem_chanChildren (m : AddressMapping) (md : ChannelMetadata) (c : NormalizedVariable) :
    c ∈ chanChildren m md ↔ ∃ kv ∈ md.bit_mappings, c = mkBitChild m.opcua_reg_add kv.2 := by
  rw [chanChildren]
  rw [(sortByBitPosition_perm _).mem_iff]
  simp only [List.mem_map]
  constructor
  · rintro ⟨kv, hkv, rfl⟩; exact ⟨kv, hkv, rfl⟩
  · rintro ⟨kv, hkv, rfl⟩; exact ⟨kv, hkv, rfl⟩

theorem chanChildren_length (m : AddressMapping) (md : ChannelMetadata) :
    (chanChildren m md).length = md.bit_mappings.length := by
  rw [chanChildren, (sortByBitPosition_perm _).length_eq, List.length_map]

/-! ### Claim C3: bit expansion -/

/-- C3: a channel-typed mapping whose `metadata.bit_mappings` has `K ≥ 1` entries
normalizes to exactly `1 + K` variables: a parent with `hasChildren = true`
followed by its `K` bit children, whose bit positions are exactly the declared
ones, whose `id`, `opcua_reg_add` and `parentId` follow the documented formulas,
and which are sorted ascending by bit position in the parent's `children`. -/
theorem bit_expansion (m : AddressMapping) (md : ChannelMetadata)
    (hdt : m.data_type = "channel") (hmd : m.metadata = some md)
    (hK : 1 ≤ md.bit_mappings.length) : BitExpansionSpec m md := by
  rw [BitExpansionSpec, normalizeAddressMapping_channel m md hdt hmd]
  refine ⟨by rw [List.length_cons, chanChildren_length]; omega, _, chanChildren m md, rfl,
    by simp, by simp, by simp, ?_, ?_, ?_⟩
  · have hperm := (sortByBitPosition_perm
      (md.bit_mappings.map fun kv => mkBitChild m.opcua_reg_add kv.2)).map
        NormalizedVariable.bitPosition
    have hmm : (md.bit_mappings.map fun kv => mkBitChild m.opcua_reg_add kv.2).map
        NormalizedVariable.bitPosition = md.bit_mappings.map fun kv => some kv.2.bit_position := by
      rw [List.map_map]
      rfl
    rw [chanChildren]
    exact hmm ▸ hperm
  · intro c hc
    rcases (mem_chanChildren m md c).mp hc with ⟨kv, _, rfl⟩
    exact ⟨kv.2.bit_position, by simp, by simp, by simp, by simp⟩
  · exact sortByBitPosition_pairwise _

/-- Witness for C3 at a concrete two-bit channel mapping. -/
theorem bit_expansion_witness :
    (exC3map.data_type = "channel" ∧ exC3map.metadata = some exC3md ∧
      1 ≤ exC3md.bit_mappings.length) ∧ BitExpansionSpec exC3map exC3md :=
  ⟨⟨rfl, rfl, by decide⟩, bit_expansion exC3map exC3md rfl rfl (by decide)⟩

/-! ### Claim C9: a channel with an empty (but present) bit_mappings record -/

/-- C9: a channel mapping whose metadata is present but whose `bit_mappings`
record is empty still takes the channel-with-bits branch: one parent with
`hasChildren = some true` and an empty `children` array, not the
`hasChildren = some false` fallback. -/
theorem channel_empty_bit_mappings (m : AddressMapping) (md : ChannelMetadata)
    (hdt : m.data_type = "channel") (hmd : m.metadata = some md)
    (hempty : md.bit_mappings = []) :
    ∃ v, normalizeAddressMapping m = [v] ∧ v.hasChildren = some true ∧
      v.children = some ([] : List NormalizedVariable) ∧ v.hasChildren ≠ some false := by
  rw [normalizeAddressMapping_channel m md hdt hmd]
  have hnil : chanChildren m md = [] := by
    rw [chanChildren, hempty]
    rfl
  rw [hnil]
  exact ⟨_, rfl, by simp, by simp [hnil], by simp⟩

/-- Witness for C9 at a concrete channel mapping with empty bit metadata. -/
theorem channel_empty_bit_mappings_witness :
    ((⟨"D1", "channel", "PX", "c", some ⟨0, []⟩⟩ : AddressMapping).data_type = "channel" ∧
      (⟨"D1", "channel", "PX", "c", some ⟨0, []⟩⟩ : AddressMapping).metadata =
        some ⟨0, []⟩ ∧ (⟨0, []⟩ : ChannelMetadata).bit_mappings = []) ∧
    ∃ v, normalizeAddressMapping ⟨"D1", "channel", "PX", "c", some ⟨0, []⟩⟩ = [v] ∧
      v.hasChildren = some true ∧ v.children = some ([] : List NormalizedVariable) ∧
      v.hasChildren ≠ some false :=
  ⟨⟨rfl, rfl, rfl⟩,
    channel_empty_bit_mappings ⟨"D1", "channel", "PX", "c", some ⟨0, []⟩⟩ ⟨0, []⟩ rfl rfl rfl⟩

/-! ### Count contributions of a single mapping -/

theorem boolContribution_bool (m : AddressMapping) (h : m.data_type = "bool") :
    boolContribution m = 1 := by
  simp [boolContribution, h]

theorem boolContribution_channel (m : AddressMapping) (md : ChannelMetadata)
    (h : m.data_type = "channel") (hm : m.metadata = some md) :
    boolContribution m = md.bit_mappings.length := by
  simp [boolContribution, h, hm]

theorem channelContribution_bool (m : AddressMapping) (h : m.data_type = "bool") :
    channelContribution m = 0 := by
  simp [channelContribution, h]

theorem channelContribution_channel (m : AddressMapping) (h : m.data_type = "channel") :
    channelContribution m = 1 := by
  simp [channelContribution, h]

/-! ### Claim C5: the only defended error in `normalizePLCConfig` -/

/-- C5: `normalizePLCConfig` throws exactly when the document's `plcs` field is
missing or not an array; for every array (empty included) it succeeds. -/
theorem missing_plcs_failure (json : RawJSONData) (genId : Nat → String) (now : Nat) :
    (json.plcs = .absent → ∃ e, normalizePLCConfig json genId now = .error e) ∧
    (∀ s, json.plcs = .notArray s → ∃ e, normalizePLCConfig json genId now = .error e) ∧
    (∀ l, json.plcs = .array l → ∃ out, normalizePLCConfig json genId now = .ok out) := by
  refine ⟨?_, ?_, ?_⟩
  · intro h
    rw [normalizePLCConfig, h]
    exact ⟨_, rfl⟩
  · intro s h
    rw [normalizePLCConfig, h]
    exact ⟨_, rfl⟩
  · intro l h
    rw [normalizePLCConfig, h]
    exact ⟨_, rfl⟩

/-- Witness for C5: a document with no `plcs`, one with `plcs = "not-an-array"`,
and one with an array. -/
theorem missing_plcs_failure_witness :
    ((⟨.absent⟩ : RawJSONData).plcs = .absent ∧
      ∃ e, normalizePLCConfig ⟨.absent⟩ (fun _ => "x") 0 = .error e) ∧
    ((⟨.notArray "not-an-array"⟩ : RawJSONData).plcs = .notArray "not-an-array" ∧
      ∃ e, normalizePLCConfig ⟨.notArray "not-an-array"⟩ (fun _ => "x") 0 = .error e) ∧
    ((⟨.array []⟩ : RawJSONData).plcs = .array [] ∧
      ∃ out, normalizePLCConfig ⟨.array []⟩ (fun _ => "x") 0 = .ok out) :=
  ⟨⟨rfl, (missing_plcs_failure ⟨.absent⟩ (fun _ => "x") 0).1 rfl⟩,
    ⟨rfl, (missing_plcs_failure ⟨.notArray "not-an-array"⟩ (fun _ => "x") 0).2.1
      "not-an-array" rfl⟩,
    ⟨rfl, (missing_plcs_failure ⟨.array []⟩ (fun _ => "x") 0).2.2 [] rfl⟩⟩

/-! ### Claim C10: tolerance of a missing/non-array `address_mappings` -/

/-- C10: a PLC entry whose `address_mappings` is absent or not an array does not
make `normalizePLCConfig` throw; its normalized image has no variables, zero
counts, status `"maintenance"` and `is_connected = false`. -/
theorem missing_address_mappings_tolerated (json : RawJSONData) (plcs : List RawPLCConfig)
    (genId : Nat → String) (now : Nat) (i : Nat) (plc : RawPLCConfig)
    (hp : json.plcs = .array plcs) (hip : plcs[i]? = some plc)
    (hbad : plc.address_mappings = .absent ∨ ∃ s, plc.address_mappings = .notArray s) :
    ∃ out, normalizePLCConfig json genId now = .ok out ∧
      ∃ q, out[i]? = some q ∧
        q.«variables» = [] ∧ q.registerCount = 0 ∧ q.boolCount = 0 ∧ q.channelCount = 0 ∧
        q.status = "maintenance" ∧ q.is_connected = false := by
  have hout : normalizePLCConfig json genId now
      = .ok (plcs.enum.map fun p => normalizeRawPLC (genId p.1) now p.2) := by
    rw [normalizePLCConfig, hp]
  refine ⟨_, hout, normalizeRawPLC (genId i) now plc, ?_, ?_⟩
  · rw [List.getElem?_map, List.getElem?_enum, hip]
    rfl
  · rcases hbad with h | ⟨s, h⟩ <;>
      exact ⟨by rw [normalizeRawPLC, h], by rw [normalizeRawPLC, h], by rw [normalizeRawPLC, h],
        by rw [normalizeRawPLC, h], by rw [normalizeRawPLC, h], by rw [normalizeRawPLC, h]⟩

/-- Witness for C10 at a document with one PLC whose `address_mappings` is absent. -/
theorem missing_address_mappings_tolerated_witness :
    ((⟨.array [⟨"p", 1, "1.2.3.4", "opc.tcp://s", .absent⟩]⟩ : RawJSONData).plcs
        = .array [⟨"p", 1, "1.2.3.4", "opc.tcp://s", .absent⟩] ∧
      ([(⟨"p", 1, "1.2.3.4", "opc.tcp://s", .absent⟩ : RawPLCConfig)][0]?
        = some ⟨"p", 1, "1.2.3.4", "opc.tcp://s", .absent⟩) ∧
      ((⟨"p", 1, "1.2.3.4", "opc.tcp://s", .absent⟩ : RawPLCConfig).address_mappings = .absent ∨
        ∃ s, (⟨"p", 1, "1.2.3.4", "opc.tcp://s", .absent⟩ : RawPLCConfig).address_mappings
          = .notArray s)) ∧
    ∃ out, normalizePLCConfig ⟨.array [⟨"p", 1, "1.2.3.4", "opc.tcp://s", .absent⟩]⟩
        (fun _ => "x") 5 = .ok out ∧
      ∃ q, out[0]? = some q ∧
        q.«variables» = [] ∧ q.registerCount = 0 ∧ q.boolCount = 0 ∧ q.channelCount = 0 ∧
        q.status = "maintenance" ∧ q.is_connected = false :=
  ⟨⟨rfl, rfl, Or.inl rfl⟩,
    missing_address_mappings_tolerated _ _ (fun _ => "x") 5 0 _ rfl rfl (Or.inl rfl)⟩

/-! ### Claim C2: count asymmetry -/

/-- C2: one bool mapping plus one channel mapping carrying 3 bits normalize to
`registerCount = 5`, `boolCount = 4`, `channelCount = 1`; and in general the
bool and channel counts need not sum to the register count. -/
theorem count_asymmetry (plc : RawPLCConfig) (b c : AddressMapping) (md : ChannelMetadata)
    (genId : Nat → String) (now : Nat)
    (ham : plc.address_mappings = .array [b, c])
    (hb : b.data_type = "bool") (hc : c.data_type = "channel")
    (hmd : c.metadata = some md) (h3 : md.bit_mappings.length = 3) :
    CountAsymmetrySpec plc genId now := by
  obtain ⟨nm, no, ip, url, am⟩ := plc
  replace ham : am = .array [b, c] := ham
  subst ham
  constructor
  · refine ⟨normalizeRawPLC (genId 0) now ⟨nm, no, ip, url, .array [b, c]⟩, rfl, ?_, ?_, ?_⟩
    · show (([b, c]).flatMap normalizeAddressMapping).length = 5
      rw [List.flatMap_cons, List.flatMap_cons, List.flatMap_nil,
        normalizeAddressMapping_bool b hb, normalizeAddressMapping_channel c md hc hmd]
      simp [chanChildren_length, h3]
    · show (([b, c]).map boolContribution).sum = 4
      rw [List.map_cons, List.map_cons, List.map_nil, List.sum_cons, List.sum_cons,
        boolContribution_bool b hb, boolContribution_channel c md hc hmd, h3]
      rfl
    · show (([b, c]).map channelContribution).sum = 1
      rw [List.map_cons, List.map_cons, List.map_nil, List.sum_cons, List.sum_cons,
        channelContribution_bool b hb, channelContribution_channel c hc]
      rfl
  · exact ⟨⟨"w", 1, "1.1.1.1", "u", .array [⟨"D0", "word", "W0", "", none⟩]⟩,
      fun _ => "i", 0, _, rfl, by decide⟩

/-- Witness for C2 at a concrete bool + 3-bit-channel PLC. -/
theorem count_asymmetry_witness :
    (exC2plc.address_mappings = .array [exC2bool, exC2chan] ∧
      exC2bool.data_type = "bool" ∧ exC2chan.data_type = "channel" ∧
      exC2chan.metadata = some exC2md ∧ exC2md.bit_mappings.length = 3) ∧
    CountAsymmetrySpec exC2plc (fun _ => "x") 0 :=
  ⟨⟨rfl, rfl, rfl, rfl, rfl⟩,
    count_asymmetry exC2plc exC2bool exC2chan exC2md (fun _ => "x") 0 rfl rfl rfl rfl rfl⟩

/-! ### Claim C8: filter idempotence and empty-query identity -/

/-- C8: filtering is idempotent for every query, and a query that is empty or
all whitespace returns the list unchanged. -/
theorem filter_idempotent_empty_identity (l : List NormalizedVariable) (q : String) :
    filterVariables (filterVariables l q) q = filterVariables l q ∧
    ((∀ ch ∈ q.data, ch.isWhitespace = true) → filterVariables l q = l) := by
  constructor
  · cases hcond : (jsTrim q == "") with
    | true => simp [filterVariables, hcond]
    | false =>
      simp only [filterVariables, hcond, Bool.false_eq_true, if_false]
      rw [List.filter_filter]
      simp [Bool.and_self]
  · intro hw
    have h1 : q.data.dropWhile Char.isWhitespace = [] := by
      rw [List.dropWhile_eq_nil_iff]
      exact fun x hx => hw x hx
    have h2 : jsTrim q = "" := by
      rw [jsTrim, h1]
      rfl
    rw [filterVariables, if_pos (by rw [h2]; rfl)]

/-- Witness for C8 at a one-element list and the all-whitespace query `" "`. -/
theorem filter_idempotent_empty_identity_witness :
    (∀ ch ∈ (" " : String).data, ch.isWhitespace = true) ∧
    filterVariables [NormalizedVariable.mk "a" "bool" "D0" "A0" "d" "bool"
      none none none none none none] " "
      = [NormalizedVariable.mk "a" "bool" "D0" "A0" "d" "bool" none none none none none none] ∧
    filterVariables (filterVariables [NormalizedVariable.mk "a" "bool" "D0" "A0" "d" "bool"
      none none none none none none] " ") " "
      = filterVariables [NormalizedVariable.mk "a" "bool" "D0" "A0" "d" "bool"
        none none none none none none] " " :=
  ⟨by decide,
    (filter_idempotent_empty_identity [NormalizedVariable.mk "a" "bool" "D0" "A0" "d" "bool"
      none none none none none none] " ").2 (by decide),
    (filter_idempotent_empty_identity [NormalizedVariable.mk "a" "bool" "D0" "A0" "d" "bool"
      none none none none none none] " ").1⟩

/-! ### Claim C7: grouping by server URL -/

theorem flatMap_map_compose {α β γ : Type} (f : α → β) (g : β → List γ) (l : List α) :
    (l.map f).flatMap g = l.flatMap fun a => g (f a) := by
  induction l with
  | nil => rfl
  | cons a t ih => simp only [List.map_cons, List.flatMap_cons, ih]

theorem insertGrouped_flat_perm (acc : List (String × List NormalizedPLC)) (url : String)
    (p : NormalizedPLC) :
    ((insertGrouped acc url p).flatMap fun kv => kv.2).Perm
      ((acc.flatMap fun kv => kv.2) ++ [p]) := by
  induction acc with
  | nil => simp [insertGrouped]
  | cons hd tl ih =>
    obtain ⟨k, ps⟩ := hd
    rw [insertGrouped]
    by_cases hk : (k == url) = true
    · rw [if_pos hk]
      simp only [List.flatMap_cons]
      have e1 : (ps ++ [p]) ++ (tl.flatMap fun kv => kv.2)
          = ps ++ ([p] ++ (tl.flatMap fun kv => kv.2)) := by
        rw [List.append_assoc]
      have e2 : (ps ++ (tl.flatMap fun kv => kv.2)) ++ [p]
          = ps ++ ((tl.flatMap fun kv => kv.2) ++ [p]) := by
        rw [List.append_assoc]
      rw [e1, e2]
      exact List.Perm.append_left ps List.perm_append_comm
    · rw [if_neg hk]
      simp only [List.flatMap_cons]
      have e2 : (ps ++ (tl.flatMap fun kv => kv.2)) ++ [p]
          = ps ++ ((tl.flatMap fun kv => kv.2) ++ [p]) := by
        rw [List.append_assoc]
      rw [e2]
      exact List.Perm.append_left ps ih

theorem foldl_insertGrouped_flat_perm (l : List NormalizedPLC)
    (acc : List (String × List NormalizedPLC)) :
    ((l.foldl (fun a p => insertGrouped a p.opcua_url p) acc).flatMap fun kv => kv.2).Perm
      ((acc.flatMap fun kv => kv.2) ++ l) := by
  induction l generalizing acc with
  | nil => simp
  | cons p t ih =>
    rw [List.foldl_cons]
    have h1 := ih (insertGrouped acc p.opcua_url p)
    have h2 := (insertGrouped_flat_perm acc p.opcua_url p).append_right t
    have e : ((acc.flatMap fun kv => kv.2) ++ [p]) ++ t = (acc.flatMap fun kv => kv.2) ++ (p :: t) := by
      rw [List.append_assoc]
      rfl
    rw [e] at h2
    exact h1.trans h2

theorem insertGrouped_inv (acc : List (String × List NormalizedPLC)) (url : String)
    (p : NormalizedPLC) (h : GroupedInv acc) (hp : p.opcua_url = url) :
    GroupedInv (insertGrouped acc url p) := by
  induction acc with
  | nil =>
    intro kv hkv q hq
    rcases List.mem_cons.mp hkv with rfl | hkv2
    · rcases List.mem_cons.mp hq with rfl | hq2
      · exact hp
      · cases hq2
    · cases hkv2
  | cons hd tl ih =>
    obtain ⟨k, ps⟩ := hd
    rw [insertGrouped]
    by_cases hk : (k == url) = true
    · rw [if_pos hk]
      intro kv hkv q hq
      rcases List.mem_cons.mp hkv with rfl | hkv2
      · rcases List.mem_append.mp hq with hq2 | hq2
        · exact h (k, ps) (List.mem_cons_self _ _) q hq2
        · rcases List.mem_cons.mp hq2 with rfl | hq3
          · rw [hp, beq_iff_eq.mp hk]
          · cases hq3
      · exact h kv (List.mem_cons_of_mem _ hkv2) q hq
    · rw [if_neg hk]
      intro kv hkv q hq
      rcases List.mem_cons.mp hkv with rfl | hkv2
      · exact h (k, ps) (List.mem_cons_self _ _) q hq
      · exact ih (fun kv2 hkv2b => h kv2 (List.mem_cons_of_mem _ hkv2b)) kv hkv2 q hq

theorem foldl_insertGrouped_inv (l : List NormalizedPLC)
    (acc : List (String × List NormalizedPLC)) (h : GroupedInv acc) :
    GroupedInv (l.foldl (fun a p => insertGrouped a p.opcua_url p) acc) := by
  induction l generalizing acc with
  | nil => exact h
  | cons p t ih =>
    rw [List.foldl_cons]
    exact ih _ (insertGrouped_inv acc p.opcua_url p h rfl)

/-- C7: `groupPLCsByServer` partitions its input by exact URL equality (the
groups' member lists are jointly a permutation of the input, and every member
carries its group's URL), a group is `"connected"` exactly when some member is
connected, and the three-PLC example from the spec yields the two documented
groups in insertion order. -/
theorem grouping_correctness :
    (∀ plcs : List NormalizedPLC,
      ((groupPLCsByServer plcs).flatMap fun g => g.plcs).Perm plcs) ∧
    (∀ plcs : List NormalizedPLC, ∀ g ∈ groupPLCsByServer plcs, ∀ p ∈ g.plcs,
      p.opcua_url = g.serverUrl) ∧
    (∀ plcs : List NormalizedPLC, ∀ g ∈ groupPLCsByServer plcs,
      (g.status = "connected" ↔ ∃ p ∈ g.plcs, p.is_connected = true)) ∧
    (∀ p1 p2 p3 : NormalizedPLC,
      p1.opcua_url = "A" → p1.is_connected = true →
      p2.opcua_url = "A" → p2.is_connected = false →
      p3.opcua_url = "B" → p3.is_connected = false →
      ∃ gA gB, groupPLCsByServer [p1, p2, p3] = [gA, gB] ∧
        gA.serverUrl = "A" ∧ gA.plcs = [p1, p2] ∧ gA.connectedCount = 1 ∧
        gA.totalCount = 2 ∧ gA.status = "connected" ∧
        gB.serverUrl = "B" ∧ gB.plcs = [p3] ∧ gB.connectedCount = 0 ∧
        gB.totalCount = 1 ∧ gB.status = "disconnected") := by
  refine ⟨?_, ?_, ?_, ?_⟩
  · intro plcs
    have h := foldl_insertGrouped_flat_perm plcs []
    simp only [List.flatMap_nil, List.nil_append] at h
    simp only [groupPLCsByServer, flatMap_map_compose]
    exact h
  · intro plcs g hg p hp
    simp only [groupPLCsByServer] at hg
    rcases List.mem_map.mp hg with ⟨kv, hkv, rfl⟩
    have inv := foldl_insertGrouped_inv plcs [] (fun kv2 hkv2 => by cases hkv2)
    exact inv kv hkv p hp
  · intro plcs g hg
    simp only [groupPLCsByServer] at hg
    rcases List.mem_map.mp hg with ⟨kv, _, rfl⟩
    by_cases hany : (kv.2.any fun p => p.is_connected) = true
    · constructor
      · intro _
        rcases List.any_eq_true.mp hany with ⟨p, hp, hc⟩
        exact ⟨p, hp, hc⟩
      · intro _
        show (if (kv.2.any fun p => p.is_connected) = true then "connected" else "disconnected")
          = "connected"
        rw [if_pos hany]
    · constructor
      · intro hstat
        have : (if (kv.2.any fun p => p.is_connected) = true then "connected" else "disconnected")
            = "connected" := hstat
        rw [if_neg hany] at this
        exact absurd this (by decide)
      · intro ⟨p, hp, hc⟩
        exact absurd (List.any_eq_true.mpr ⟨p, hp, hc⟩) hany
  · intro p1 p2 p3 h1 hc1 h2 hc2 h3 hc3
    have hgrouped : [p1, p2, p3].foldl (fun acc p => insertGrouped acc p.opcua_url p) []
        = [("A", [p1, p2]), ("B", [p3])] := by
      rw [List.foldl_cons, List.foldl_cons, List.foldl_cons, List.foldl_nil, h1, h2, h3]
      rfl
    have hg : groupPLCsByServer [p1, p2, p3] =
        [⟨"A", [p1, p2], 1, 2, "connected",
          (([p1, p2]).map fun p => (p.last_checked : Int)).foldl max jsNegInfinity⟩,
         ⟨"B", [p3], 0, 1, "disconnected",
          (([p3]).map fun p => (p.last_checked : Int)).foldl max jsNegInfinity⟩] := by
      simp only [groupPLCsByServer]
      rw [hgrouped]
      simp [hc1, hc2, hc3]
    exact ⟨_, _, hg, rfl, rfl, rfl, rfl, rfl, rfl, rfl, rfl, rfl, rfl⟩

/-- Witness for C7 at the spec's three-PLC example. -/
theorem grouping_correctness_witness :
    ((exC7plc "A" true).opcua_url = "A" ∧ (exC7plc "A" true).is_connected = true ∧
      (exC7plc "A" false).opcua_url = "A" ∧ (exC7plc "A" false).is_connected = false ∧
      (exC7plc "B" false).opcua_url = "B" ∧ (exC7plc "B" false).is_connected = false) ∧
    ∃ gA gB, groupPLCsByServer [exC7plc "A" true, exC7plc "A" false, exC7plc "B" false]
        = [gA, gB] ∧
      gA.serverUrl = "A" ∧ gA.plcs = [exC7plc "A" true, exC7plc "A" false] ∧
      gA.connectedCount = 1 ∧ gA.totalCount = 2 ∧ gA.status = "connected" ∧
      gB.serverUrl = "B" ∧ gB.plcs = [exC7plc "B" false] ∧ gB.connectedCount = 0 ∧
      gB.totalCount = 1 ∧ gB.status = "disconnected" :=
  ⟨⟨rfl, rfl, rfl, rfl, rfl, rfl⟩,
    grouping_correctness.2.2.2 (exC7plc "A" true) (exC7plc "A" false) (exC7plc "B" false)
      rfl rfl rfl rfl rfl rfl⟩

/-! ### Claim C6: parent/child linkage -/

theorem parentId_source (m : AddressMapping) (v : NormalizedVariable) (pid : String)
    (hv : v ∈ normalizeAddressMapping m) (hpid : v.parentId = some pid) :
    m.data_type = "channel" ∧ m.metadata.isSome = true ∧ m.opcua_reg_add = pid := by
  by_cases hb : m.data_type = "bool"
  · rw [normalizeAddressMapping_bool m hb] at hv
    rcases List.mem_cons.mp hv with rfl | hv2
    · simp at hpid
    · cases hv2
  · by_cases hc : m.data_type = "channel"
    · cases hm : m.metadata with
      | none =>
        rw [normalizeAddressMapping_other m hb (Or.inr hm)] at hv
        rcases List.mem_cons.mp hv with rfl | hv2
        · simp at hpid
        · cases hv2
      | some md =>
        rw [normalizeAddressMapping_channel m md hc hm] at hv
        rcases List.mem_cons.mp hv with rfl | hv2
        · simp at hpid
        · rcases (mem_chanChildren m md v).mp hv2 with ⟨kv, _, rfl⟩
          simp only [mkBitChild_parentId, Option.some.injEq] at hpid
          exact ⟨hc, by simp [hm], hpid⟩
    · rw [normalizeAddressMapping_other m hb (Or.inl hc)] at hv
      rcases List.mem_cons.mp hv with rfl | hv2
      · simp at hpid
      · cases hv2

theorem countP_linkP_mapping (m : AddressMapping) (pid : String) :
    (normalizeAddressMapping m).countP (linkP pid)
      = if (m.data_type == "channel" && m.metadata.isSome && (m.opcua_reg_add == pid))
        then 1 else 0 := by
  by_cases hb : m.data_type = "bool"
  · rw [normalizeAddressMapping_bool m hb]
    simp [linkP, List.countP_cons, hb]
  · by_cases hc : m.data_type = "channel"
    · cases hm : m.metadata with
      | none =>
        rw [normalizeAddressMapping_other m hb (Or.inr hm)]
        simp [linkP, List.countP_cons, hm]
      | some md =>
        rw [normalizeAddressMapping_channel m md hc hm]
        have hcs : (chanChildren m md).countP (linkP pid) = 0 := by
          rw [List.countP_eq_zero]
          intro c hcmem
          rcases (mem_chanChildren m md c).mp hcmem with ⟨kv, _, rfl⟩
          simp [linkP]
        rw [List.countP_cons, hcs]
        simp only [linkP, withChildren_id, withHasChildren_id, baseVariableOf_id,
          withChildren_hasChildren]
        have h2 : (m.data_type == "channel") = true := by rw [hc]; rfl
        rw [h2]
        cases hq : (m.opcua_reg_add == pid) <;> simp [hq]
    · rw [normalizeAddressMapping_other m hb (Or.inl hc)]
      have : (m.data_type == "channel") = false := beq_eq_false_iff_ne.mpr hc
      simp [linkP, List.countP_cons, this]

theorem countP_linkP_flatMap (l : List AddressMapping) (pid : String) :
    ((l.flatMap normalizeAddressMapping).countP (linkP pid))
      = l.countP fun m =>
          m.data_type == "channel" && m.metadata.isSome && (m.opcua_reg_add == pid) := by
  induction l with
  | nil => rfl
  | cons a t ih =>
    rw [List.flatMap_cons, List.countP_append, ih, countP_linkP_mapping, List.countP_cons]
    omega

theorem countP_chan_eq_count (l : List AddressMapping) (pid : String) :
    (l.countP fun m =>
        m.data_type == "channel" && m.metadata.isSome && (m.opcua_reg_add == pid))
      = ((l.filter fun m => m.data_type == "channel" && m.metadata.isSome).map
          AddressMapping.opcua_reg_add).count pid := by
  induction l with
  | nil => rfl
  | cons a t ih =>
    rw [List.countP_cons, List.filter_cons]
    cases hq : (a.data_type == "channel" && a.metadata.isSome) with
    | true =>
      rw [ih]
      cases hqq : (a.opcua_reg_add == pid) <;> simp [hqq, List.count_cons]
    | false =>
      rw [ih]
      simp

/-- C6 is false as stated: with two channel mappings sharing an
`opcua_reg_add`, a bit child's `parentId` matches two variables with
`hasChildren = true`, not exactly one. -/
theorem parent_linkage_unique_counterexample :
    ∃ out, normalizePLCConfig ⟨.array [exC6dup]⟩ (fun _ => "id") 7 = .ok out ∧
      ∃ plc ∈ out, ∃ v ∈ plc.«variables», ∃ pid, v.parentId = some pid ∧
        (plc.«variables».countP fun w => w.id == pid && w.hasChildren == some true) ≠ 1 ∧
        (plc.«variables».countP fun w => w.id == pid && w.hasChildren == some true) = 2 := by
  refine ⟨_, rfl, _, List.mem_cons_self _ _, _,
    List.mem_cons_of_mem _ (List.mem_cons_self _ _), "X", rfl, by decide, by decide⟩

/-- C6 (amended): provided the channel mappings that carry metadata within a
PLC entry have pairwise-distinct `opcua_reg_add` values, every normalized
variable with a `parentId` has exactly one variable in the same list with
`id = parentId` and `hasChildren = true`. -/
theorem parent_linkage_unique (json : RawJSONData) (plcs : List RawPLCConfig)
    (genId : Nat → String) (now : Nat) (out : List NormalizedPLC)
    (hp : json.plcs = .array plcs)
    (hnd : ∀ raw ∈ plcs, ∀ l, raw.address_mappings = .array l →
      ((l.filter fun m => m.data_type == "channel" && m.metadata.isSome).map
        AddressMapping.opcua_reg_add).Nodup)
    (hout : normalizePLCConfig json genId now = .ok out) :
    ∀ plc ∈ out, ∀ v ∈ plc.«variables», ∀ pid, v.parentId = some pid →
      (plc.«variables».countP fun w => w.id == pid && w.hasChildren == some true) = 1 := by
  rw [normalizePLCConfig, hp] at hout
  have hout2 : out = plcs.enum.map fun p => normalizeRawPLC (genId p.1) now p.2 := by
    injection hout with h
    exact h.symm
  subst hout2
  intro plc hplc v hv pid hpid
  rcases List.mem_map.mp hplc with ⟨⟨i, raw⟩, hmem, rfl⟩
  have hrawmem : raw ∈ plcs := by
    rcases List.mem_enum hmem with ⟨hi, heq⟩
    rw [heq]
    exact List.getElem_mem hi
  cases ham : raw.address_mappings with
  | absent =>
    have hv2 : (normalizeRawPLC (genId (i, raw).1) now (i, raw).2).«variables» = [] := by
      rw [normalizeRawPLC, ham]
    rw [hv2] at hv
    cases hv
  | notArray s =>
    have hv2 : (normalizeRawPLC (genId (i, raw).1) now (i, raw).2).«variables» = [] := by
      rw [normalizeRawPLC, ham]
    rw [hv2] at hv
    cases hv
  | array l =>
    have hv2 : (normalizeRawPLC (genId (i, raw).1) now (i, raw).2).«variables»
        = l.flatMap normalizeAddressMapping := by
      rw [normalizeRawPLC, ham]
    rw [hv2] at hv ⊢
    rcases List.mem_flatMap.mp hv with ⟨m, hm, hvm⟩
    obtain ⟨hdt, hsome, hopc⟩ := parentId_source m v pid hvm hpid
    show (l.flatMap normalizeAddressMapping).countP (linkP pid) = 1
    rw [countP_linkP_flatMap, countP_chan_eq_count]
    apply List.count_eq_one_of_mem (hnd raw hrawmem l ham)
    exact List.mem_map.mpr ⟨m, List.mem_filter.mpr ⟨hm, by simp [hdt, hsome]⟩, hopc⟩

/-- Witness for the amended C6 at a concrete single-channel PLC. -/
theorem parent_linkage_unique_witness :
    ((⟨.array [exC6raw]⟩ : RawJSONData).plcs = .array [exC6raw] ∧
      (∀ raw ∈ [exC6raw], ∀ l, raw.address_mappings = .array l →
        ((l.filter fun m => m.data_type == "channel" && m.metadata.isSome).map
          AddressMapping.opcua_reg_add).Nodup) ∧
      normalizePLCConfig ⟨.array [exC6raw]⟩ (fun _ => "x") 0
        = .ok [normalizeRawPLC "x" 0 exC6raw]) ∧
    ∀ plc ∈ [normalizeRawPLC "x" 0 exC6raw], ∀ v ∈ plc.«variables», ∀ pid,
      v.parentId = some pid →
      (plc.«variables».countP fun w => w.id == pid && w.hasChildren == some true) = 1 := by
  have hnd : ∀ raw ∈ [exC6raw], ∀ l, raw.address_mappings = .array l →
      ((l.filter fun m => m.data_type == "channel" && m.metadata.isSome).map
        AddressMapping.opcua_reg_add).Nodup := by
    intro raw hraw l hl
    rcases List.mem_cons.mp hraw with rfl | h
    · cases hl
      decide
    · cases h
  exact ⟨⟨rfl, hnd, rfl⟩,
    parent_linkage_unique ⟨.array [exC6raw]⟩ [exC6raw] (fun _ => "x") 0
      [normalizeRawPLC "x" 0 exC6raw] rfl hnd rfl⟩

/-! ### Claim C4: the denormalizer never reads the nested `children` field -/

theorem filter_map_comm_of_pred {α : Type} (f : α → α) (p : α → Bool)
    (h : ∀ a, p (f a) = p a) (l : List α) :
    (l.map f).filter p = (l.filter p).map f := by
  induction l with
  | nil => rfl
  | cons a t ih =>
    rw [List.map_cons, List.filter_cons, List.filter_cons, h a]
    cases hp : p a <;> simp [ih]

theorem getParent_map_strip (vs : List NormalizedVariable) :
    getParentVariables (vs.map NormalizedVariable.stripChildren)
      = (getParentVariables vs).map NormalizedVariable.stripChildren := by
  rw [getParentVariables, getParentVariables]
  exact filter_map_comm_of_pred _ _ (fun a => by rw [stripChildren_parentId]) vs

theorem getChild_map_strip (vs : List NormalizedVariable) (pid : String) :
    getChildVariables (vs.map NormalizedVariable.stripChildren) pid
      = (getChildVariables vs pid).map NormalizedVariable.stripChildren := by
  rw [getChildVariables, getChildVariables]
  exact filter_map_comm_of_pred _ _ (fun a => by rw [stripChildren_parentId]) vs

theorem foldl_recordSet_map_strip (cs : List NormalizedVariable)
    (acc : List (String × BitMapping)) :
    (cs.map NormalizedVariable.stripChildren).foldl
      (fun r c => recordSet r (denormChildEntry c).1 (denormChildEntry c).2) acc
      = cs.foldl (fun r c => recordSet r (denormChildEntry c).1 (denormChildEntry c).2) acc := by
  induction cs generalizing acc with
  | nil => rfl
  | cons a t ih =>
    rw [List.map_cons, List.foldl_cons, List.foldl_cons]
    have he : denormChildEntry a.stripChildren = denormChildEntry a := by
      simp only [denormChildEntry, stripChildren_bitPosition, stripChildren_plc_reg_add,
        stripChildren_description]
    rw [he]
    exact ih _

theorem denormMapping_map_strip (vs : List NormalizedVariable) (v : NormalizedVariable) :
    denormMapping (vs.map NormalizedVariable.stripChildren) v.stripChildren
      = denormMapping vs v := by
  simp only [denormMapping, stripChildren_type, stripChildren_hasChildren,
    stripChildren_plc_reg_add, stripChildren_data_type, stripChildren_opcua_reg_add,
    stripChildren_description, stripChildren_id]
  cases hcond : (v.type == "channel" && jsTruthyOptBool v.hasChildren) with
  | false => rfl
  | true =>
    rw [getChild_map_strip, foldl_recordSet_map_strip, List.length_map]

theorem denormalizePLC_strip (p : NormalizedPLC) :
    denormalizePLC { p with «variables» := p.«variables».map NormalizedVariable.stripChildren }
      = denormalizePLC p := by
  simp only [denormalizePLC]
  have hmaps : (getParentVariables (p.«variables».map NormalizedVariable.stripChildren)).map
        (denormMapping (p.«variables».map NormalizedVariable.stripChildren))
      = (getParentVariables p.«variables»).map (denormMapping p.«variables») := by
    rw [getParent_map_strip, List.map_map]
    exact List.map_congr_left fun a _ => denormMapping_map_strip p.«variables» a
  rw [hmaps]

/-- C4: two normalized PLCs that agree on everything except the nested
`children` arrays stored inside their variables denormalize to the same
`RawPLCConfig`: channel bit maps are recomputed from the flat list via
`parentId`, never read from `children`. -/
theorem denormalize_ignores_children (p q : NormalizedPLC)
    (hid : p.id = q.id) (hname : p.plc_name = q.plc_name) (hno : p.plc_no = q.plc_no)
    (hip : p.plc_ip = q.plc_ip) (hurl : p.opcua_url = q.opcua_url)
    (hstatus : p.status = q.status) (hlast : p.last_checked = q.last_checked)
    (hconn : p.is_connected = q.is_connected) (hcreated : p.created_at = q.created_at)
    (hreg : p.registerCount = q.registerCount) (hbool : p.boolCount = q.boolCount)
    (hchan : p.channelCount = q.channelCount)
    (hvars : p.«variables».map NormalizedVariable.stripChildren
      = q.«variables».map NormalizedVariable.stripChildren) :
    denormalizePLC p = denormalizePLC q := by
  rw [← denormalizePLC_strip p, ← denormalizePLC_strip q]
  cases p
  cases q
  simp only [] at hid hname hno hip hurl hstatus hlast hconn hcreated hreg hbool hchan hvars
  subst hid hname hno hip hurl hstatus hlast hconn hcreated hreg hbool hchan
  rw [hvars]

/-- Witness for C4: populated vs. absent `children` denormalize identically. -/
theorem denormalize_ignores_children_witness :
    (exC4withChildren.id = exC4withoutChildren.id ∧
      exC4withChildren.«variables».map NormalizedVariable.stripChildren
        = exC4withoutChildren.«variables».map NormalizedVariable.stripChildren) ∧
    denormalizePLC exC4withChildren = denormalizePLC exC4withoutChildren :=
  ⟨⟨rfl, rfl⟩,
    denormalize_ignores_children exC4withChildren exC4withoutChildren
      rfl rfl rfl rfl rfl rfl rfl rfl rfl rfl rfl rfl rfl⟩

/-! ### Claim C1: round-trip through normalize and denormalize -/

theorem parentOf_bool (m : AddressMapping) (h : m.data_type = "bool") :
    parentOf m = baseVariableOf m := by
  rw [parentOf, if_pos (by rw [h]; rfl)]

theorem parentOf_channel (m : AddressMapping) (md : ChannelMetadata)
    (hdt : m.data_type = "channel") (hmd : m.metadata = some md) :
    parentOf m
      = ((baseVariableOf m).withHasChildren (some true)).withChildren
          (some (chanChildren m md)) := by
  rw [parentOf, if_neg (by rw [hdt]; decide)]
  have h2 : (m.data_type == "channel") = true := by rw [hdt]; rfl
  rw [h2, hmd]

theorem parentOf_other (m : AddressMapping)
    (h1 : m.data_type ≠ "bool") (h2 : m.data_type ≠ "channel" ∨ m.metadata = none) :
    parentOf m = (baseVariableOf m).withHasChildren (some false) := by
  rw [parentOf, if_neg (by simp [h1])]
  rcases h2 with h2 | h2
  · have : (m.data_type == "channel") = false := beq_eq_false_iff_ne.mpr h2
    rw [this]
  · rw [h2]
    cases m.data_type == "channel" <;> rfl

theorem filter_parent_single (m : AddressMapping) (hne : m.opcua_reg_add ≠ "") :
    (normalizeAddressMapping m).filter (fun v => jsFalsyStr v.parentId) = [parentOf m] := by
  have hfalse : (m.opcua_reg_add == "") = false := beq_eq_false_iff_ne.mpr hne
  by_cases hb : m.data_type = "bool"
  · rw [normalizeAddressMapping_bool m hb, parentOf_bool m hb]
    simp [jsFalsyStr]
  · by_cases hc : m.data_type = "channel"
    · cases hmm : m.metadata with
      | none =>
        rw [normalizeAddressMapping_other m hb (Or.inr hmm), parentOf_other m hb (Or.inr hmm)]
        simp [jsFalsyStr]
      | some md =>
        rw [normalizeAddressMapping_channel m md hc hmm, parentOf_channel m md hc hmm,
          List.filter_cons]
        have hcs : (chanChildren m md).filter (fun v => jsFalsyStr v.parentId) = [] := by
          rw [List.filter_eq_nil_iff]
          intro c hcmem
          rcases (mem_chanChildren m md c).mp hcmem with ⟨kv, _, rfl⟩
          simp [jsFalsyStr, hfalse]
        rw [hcs]
        simp [jsFalsyStr]
    · rw [normalizeAddressMapping_other m hb (Or.inl hc), parentOf_other m hb (Or.inl hc)]
      simp [jsFalsyStr]

theorem getParent_flatMap (l : List AddressMapping) (hne : ∀ m ∈ l, m.opcua_reg_add ≠ "") :
    getParentVariables (l.flatMap normalizeAddressMapping) = l.map parentOf := by
  rw [getParentVariables, filter_flatMap_comm]
  induction l with
  | nil => rfl
  | cons a t ih =>
    rw [List.flatMap_cons, List.map_cons, filter_parent_single a (hne a (List.mem_cons_self a t)),
      ih (fun m hm => hne m (List.mem_cons_of_mem a hm))]
    rfl

theorem filter_children_ne (m' : AddressMapping) (pid : String)
    (hne : m'.opcua_reg_add ≠ pid) :
    (normalizeAddressMapping m').filter (fun v => v.parentId == some pid) = [] := by
  rw [List.filter_eq_nil_iff]
  intro v hv hcon
  have hp : v.parentId = some pid := beq_iff_eq.mp hcon
  obtain ⟨_, _, hopc⟩ := parentId_source m' v pid hv hp
  exact hne hopc

theorem filter_children_eq (m : AddressMapping) (md : ChannelMetadata)
    (hdt : m.data_type = "channel") (hmd : m.metadata = some md) :
    (normalizeAddressMapping m).filter (fun v => v.parentId == some m.opcua_reg_add)
      = chanChildren m md := by
  rw [normalizeAddressMapping_channel m md hdt hmd, List.filter_cons]
  have hpar : ((((baseVariableOf m).withHasChildren (some true)).withChildren
      (some (chanChildren m md))).parentId == some m.opcua_reg_add) = false := by
    simp
  rw [hpar]
  have hcs : (chanChildren m md).filter (fun v => v.parentId == some m.opcua_reg_add)
      = chanChildren m md := by
    rw [List.filter_eq_self]
    intro c hcmem
    rcases (mem_chanChildren m md c).mp hcmem with ⟨kv, _, rfl⟩
    simp
  rw [hcs]
  simp

theorem flatMap_children_nil (t : List AddressMapping) (pid : String)
    (h : ∀ m' ∈ t, m'.opcua_reg_add ≠ pid) :
    t.flatMap (fun m' => (normalizeAddressMapping m').filter fun v => v.parentId == some pid)
      = [] := by
  induction t with
  | nil => rfl
  | cons a s ih =>
    rw [List.flatMap_cons, filter_children_ne a pid (h a (List.mem_cons_self a s)),
      List.nil_append]
    exact ih fun m2 hm2 => h m2 (List.mem_cons_of_mem a hm2)

theorem getChild_flatMap (l : List AddressMapping) (m : AddressMapping) (md : ChannelMetadata)
    (hm : m ∈ l) (hdt : m.data_type = "channel") (hmd : m.metadata = some md)
    (hnd : (l.map AddressMapping.opcua_reg_add).Nodup) :
    getChildVariables (l.flatMap normalizeAddressMapping) m.opcua_reg_add
      = chanChildren m md := by
  rw [getChildVariables, filter_flatMap_comm]
  induction l with
  | nil => cases hm
  | cons a t ih =>
    rw [List.map_cons, List.nodup_cons] at hnd
    rw [List.flatMap_cons]
    rcases List.mem_cons.mp hm with rfl | hmt
    · rw [filter_children_eq m md hdt hmd,
        flatMap_children_nil t m.opcua_reg_add
          (fun m2 hm2 heq => hnd.1 (heq ▸ List.mem_map_of_mem _ hm2)),
        List.append_nil]
    · rw [filter_children_ne a m.opcua_reg_add
        (fun heq => hnd.1 (heq ▸ List.mem_map_of_mem _ hmt)), List.nil_append]
      exact ih hmt hnd.2

theorem recordSet_fresh (r : List (String × BitMapping)) (k : String) (v : BitMapping)
    (h : k ∉ r.map Prod.fst) : recordSet r k v = r ++ [(k, v)] := by
  induction r with
  | nil => rfl
  | cons hd tl ih =>
    obtain ⟨k2, v2⟩ := hd
    rw [recordSet]
    have hne : (k2 == k) = false := by
      apply beq_eq_false_iff_ne.mpr
      intro he
      exact h (by rw [List.map_cons]; exact he ▸ List.mem_cons_self k2 _)
    rw [hne, if_neg Bool.false_ne_true,
      ih fun hmem => h (by rw [List.map_cons]; exact List.mem_cons_of_mem _ hmem)]
    rfl

theorem foldl_recordSet_fresh (cs : List NormalizedVariable) (acc : List (String × BitMapping))
    (hnd : ((acc.map Prod.fst) ++ cs.map fun c => (denormChildEntry c).1).Nodup) :
    cs.foldl (fun r c => recordSet r (denormChildEntry c).1 (denormChildEntry c).2) acc
      = acc ++ cs.map denormChildEntry := by
  induction cs generalizing acc with
  | nil => simp
  | cons a t ih =>
    rw [List.map_cons] at hnd
    have hfresh : (denormChildEntry a).1 ∉ acc.map Prod.fst := by
      intro hmem
      rcases List.nodup_append.mp hnd with ⟨_, _, hdisj⟩
      exact hdisj hmem (List.mem_cons_self _ _)
    rw [List.foldl_cons, recordSet_fresh acc _ _ hfresh]
    have hnd2 : (((acc ++ [denormChildEntry a]).map Prod.fst)
        ++ t.map fun c => (denormChildEntry c).1).Nodup := by
      rw [List.map_append, List.map_cons, List.map_nil]
      have : ((acc.map Prod.fst ++ [(denormChildEntry a).1])
          ++ t.map fun c => (denormChildEntry c).1)
          = acc.map Prod.fst ++ ((denormChildEntry a).1 :: t.map fun c => (denormChildEntry c).1) := by
        rw [List.append_assoc]
        rfl
      rw [this]
      exact hnd
    rw [ih _ hnd2, List.append_assoc]
    rfl

theorem chanChildren_keys_nodup (m : AddressMapping) (md : ChannelMetadata)
    (hkeys : (md.bit_mappings.map fun kv => bitKeyOf kv.2.bit_position).Nodup) :
    ((chanChildren m md).map fun c => (denormChildEntry c).1).Nodup := by
  have hperm : ((md.bit_mappings.map fun kv => mkBitChild m.opcua_reg_add kv.2).map
        fun c => (denormChildEntry c).1).Perm
      ((chanChildren m md).map fun c => (denormChildEntry c).1) :=
    ((sortByBitPosition_perm _).map _).symm
  have heq : ((md.bit_mappings.map fun kv => mkBitChild m.opcua_reg_add kv.2).map
        fun c => (denormChildEntry c).1)
      = md.bit_mappings.map fun kv => bitKeyOf kv.2.bit_position := by
    rw [List.map_map]
    rfl
  rw [heq] at hperm
  exact hperm.nodup hkeys

theorem chanChildren_entries_perm (m : AddressMapping) (md : ChannelMetadata) :
    ((chanChildren m md).map denormChildEntry).Perm
      (md.bit_mappings.map fun kv => (bitKeyOf kv.2.bit_position, kv.2)) := by
  have hperm := (sortByBitPosition_perm
    (md.bit_mappings.map fun kv => mkBitChild m.opcua_reg_add kv.2)).map denormChildEntry
  have heq : ((md.bit_mappings.map fun kv => mkBitChild m.opcua_reg_add kv.2).map
        denormChildEntry)
      = md.bit_mappings.map fun kv => (bitKeyOf kv.2.bit_position, kv.2) := by
    rw [List.map_map]
    rfl
  rw [heq] at hperm
  exact hperm

theorem denormMapping_cond_false (vs : List NormalizedVariable) (v : NormalizedVariable)
    (hcond : ((v.type == "channel") && jsTruthyOptBool v.hasChildren) = false) :
    denormMapping vs v = ⟨v.plc_reg_add, v.data_type, v.opcua_reg_add, v.description, none⟩ := by
  rw [denormMapping, hcond, if_neg Bool.false_ne_true]

theorem denormMapping_cond_true (vs : List NormalizedVariable) (v : NormalizedVariable)
    (hcond : ((v.type == "channel") && jsTruthyOptBool v.hasChildren) = true) :
    denormMapping vs v
      = ⟨v.plc_reg_add, v.data_type, v.opcua_reg_add, v.description,
          some ⟨((getChildVariables vs v.id).length : Int),
            (getChildVariables vs v.id).foldl
              (fun r c => recordSet r (denormChildEntry c).1 (denormChildEntry c).2) []⟩⟩ := by
  rw [denormMapping, hcond, if_pos rfl]

theorem mappingEquiv_parentOf (l : List AddressMapping) (m : AddressMapping) (hm : m ∈ l)
    (hnd : (l.map AddressMapping.opcua_reg_add).Nodup)
    (hchanmd : m.data_type = "channel" → m.metadata.isSome = true)
    (hkeys : ∀ md, m.metadata = some md →
      (md.bit_mappings.map fun kv => bitKeyOf kv.2.bit_position).Nodup) :
    MappingEquiv m (denormMapping (l.flatMap normalizeAddressMapping) (parentOf m)) := by
  by_cases hb : m.data_type = "bool"
  · rw [parentOf_bool m hb]
    have htyp : (baseVariableOf m).type = "bool" := by
      rw [baseVariableOf_type, if_neg]
      rw [hb]
      decide
    have hcond : (((baseVariableOf m).type == "channel")
        && jsTruthyOptBool (baseVariableOf m).hasChildren) = false := by
      rw [htyp]
      rfl
    rw [denormMapping_cond_false _ _ hcond]
    refine ⟨by simp, by simp, by simp, by simp, ?_⟩
    intro md hmd hdt
    rw [hb] at hdt
    exact absurd hdt (by decide)
  · by_cases hc : m.data_type = "channel"
    · cases hmm : m.metadata with
      | none =>
        have hs := hchanmd hc
        rw [hmm] at hs
        simp at hs
      | some md =>
        rw [parentOf_channel m md hc hmm]
        have hcond : (((((baseVariableOf m).withHasChildren (some true)).withChildren
              (some (chanChildren m md))).type == "channel")
            && jsTruthyOptBool ((((baseVariableOf m).withHasChildren (some true)).withChildren
              (some (chanChildren m md))).hasChildren)) = true := by
          simp [hc, jsTruthyOptBool]
        rw [denormMapping_cond_true _ _ hcond]
        have hid : ((((baseVariableOf m).withHasChildren (some true)).withChildren
            (some (chanChildren m md))).id) = m.opcua_reg_add := by
          simp
        rw [hid, getChild_flatMap l m md hm hc hmm hnd,
          foldl_recordSet_fresh (chanChildren m md) []
            (by simpa using chanChildren_keys_nodup m md (hkeys md hmm))]
        refine ⟨by simp, by simp, by simp, by simp, ?_⟩
        intro md2 hmd2 _
        rw [hmm] at hmd2
        injection hmd2 with hmd2e
        subst hmd2e
        refine ⟨_, rfl, ?_⟩
        simpa using chanChildren_entries_perm m md
    · rw [parentOf_other m hb (Or.inl hc)]
      have hbeq : (m.data_type == "channel") = false := beq_eq_false_iff_ne.mpr hc
      have hcond : ((((baseVariableOf m).withHasChildren (some false)).type == "channel")
          && jsTruthyOptBool (((baseVariableOf m).withHasChildren (some false)).hasChildren))
          = false := by
        simp [hbeq, jsTruthyOptBool]
      rw [denormMapping_cond_false _ _ hcond]
      refine ⟨by simp, by simp, by simp, by simp, ?_⟩
      intro md hmd hdt
      exact absurd hdt hc

/-- C1: for a well-formed PLC configuration (distinct, nonempty `opcua_reg_add`
values; channel mappings carry metadata; within each channel the rendered
zero-padded bit keys are distinct), denormalizing the normalization of
`{plcs: [cfg]}` reproduces `cfg.address_mappings` up to structural
equivalence: same four scalar fields per mapping, and per channel the same bit
entries re-keyed as `"bit_"` plus the zero-padded bit position. -/
theorem roundtrip_address_mappings (cfg : RawPLCConfig) (l : List AddressMapping)
    (genId : Nat → String) (now : Nat)
    (hl : cfg.address_mappings = .array l)
    (hnd : (l.map AddressMapping.opcua_reg_add).Nodup)
    (hne : ∀ m ∈ l, m.opcua_reg_add ≠ "")
    (hchan : ∀ m ∈ l, m.data_type = "channel" → m.metadata.isSome = true)
    (hkeys : ∀ m ∈ l, ∀ md, m.metadata = some md →
      (md.bit_mappings.map fun kv => bitKeyOf kv.2.bit_position).Nodup) :
    ∃ np, normalizePLCConfig ⟨.array [cfg]⟩ genId now = .ok [np] ∧
      ∃ dl, (denormalizePLC np).address_mappings = .array dl ∧
        List.Forall₂ MappingEquiv l dl := by
  obtain ⟨nm, no, ip, url, am⟩ := cfg
  replace hl : am = .array l := hl
  subst hl
  refine ⟨normalizeRawPLC (genId 0) now ⟨nm, no, ip, url, .array l⟩, rfl, ?_⟩
  have hden : (denormalizePLC
        (normalizeRawPLC (genId 0) now ⟨nm, no, ip, url, .array l⟩)).address_mappings
      = .array ((l.map parentOf).map (denormMapping (l.flatMap normalizeAddressMapping))) := by
    show AddressMappingsField.array
        ((getParentVariables (l.flatMap normalizeAddressMapping)).map
          (denormMapping (l.flatMap normalizeAddressMapping))) = _
    rw [getParent_flatMap l hne]
  refine ⟨_, hden, ?_⟩
  rw [List.map_map]
  apply forall₂_map_self
  intro m hm
  exact mappingEquiv_parentOf l m hm hnd (hchan m hm) (hkeys m hm)

/-- Witness for C1 at a concrete bool + channel configuration. -/
theorem roundtrip_address_mappings_witness :
    (exC1cfg.address_mappings = .array exC1l ∧
      (exC1l.map AddressMapping.opcua_reg_add).Nodup ∧
      (∀ m ∈ exC1l, m.opcua_reg_add ≠ "") ∧
      (∀ m ∈ exC1l, m.data_type = "channel" → m.metadata.isSome = true) ∧
      (∀ m ∈ exC1l, ∀ md, m.metadata = some md →
        (md.bit_mappings.map fun kv => bitKeyOf kv.2.bit_position).Nodup)) ∧
    ∃ np, normalizePLCConfig ⟨.array [exC1cfg]⟩ (fun _ => "x") 3 = .ok [np] ∧
      ∃ dl, (denormalizePLC np).address_mappings = .array dl ∧
        List.Forall₂ MappingEquiv exC1l dl := by
  have hkeys : ∀ m ∈ exC1l, ∀ md, m.metadata = some md →
      (md.bit_mappings.map fun kv => bitKeyOf kv.2.bit_position).Nodup := by
    intro m hm md hmd
    rcases List.mem_cons.mp hm with rfl | hm2
    · cases hmd
    · rcases List.mem_cons.mp hm2 with rfl | hm3
      · cases hmd
        decide
      · cases hm3
  exact ⟨⟨rfl, by decide, by decide, by decide, hkeys⟩,
    roundtrip_address_mappings exC1cfg exC1l (fun _ => "x") 3 rfl (by decide) (by decide)
      (by decide) hkeys⟩
